import Mathlib

/- A verification development for the Snap interaction of this repository
   (src/dist/control/ScaleLine.js, second concatenated module: ol/interaction/Snap).

   Coordinates are modelled as pairs of rationals.  External collaborators that
   the repository imports but does not define (coordinate helpers, extent
   helpers, the RBush spatial index, map pixel transforms, user projections)
   are modelled from the contracts stated in the specification; each such
   definition carries a doc comment saying so. -/

abbrev Coord := ℚ × ℚ

/-- Modelled from the spec: squared data-space distance between two coordinates
(the ol coordinate helper squaredDistance, not under src). -/
def squaredDistance (a b : Coord) : ℚ :=
  (a.1 - b.1) * (a.1 - b.1) + (a.2 - b.2) * (a.2 - b.2)

/-- Modelled from the spec: closest point on a segment to a coordinate (the ol
coordinate helper closestOnSegment, not under src).  The projection parameter
along the segment is clamped to the segment; a degenerate zero-length segment
yields the shared endpoint, as section 7 of the spec requires. -/
def closestOnSegment (p : Coord) (s : Coord × Coord) : Coord :=
  let x1 := s.1.1
  let y1 := s.1.2
  let x2 := s.2.1
  let y2 := s.2.2
  let dx := x2 - x1
  let dy := y2 - y1
  let along : ℚ :=
    if dx = 0 ∧ dy = 0 then 0
    else (dx * (p.1 - x1) + dy * (p.2 - y1)) / (dx * dx + dy * dy)
  if along ≤ 0 then (x1, y1)
  else if 1 ≤ along then (x2, y2)
  else (x1 + along * dx, y1 + along * dy)

/-- An axis-aligned extent in data coordinates (ol extent arrays are
[minX, minY, maxX, maxY]). -/
structure Extent where
  minX : ℚ
  minY : ℚ
  maxX : ℚ
  maxY : ℚ
deriving DecidableEq

/-- Modelled from the spec: extending an extent by one coordinate.  `none`
stands for the empty extent createEmpty() (infinite inverted corners), which
any coordinate replaces. -/
def extendCoord (acc : Option Extent) (c : Coord) : Option Extent :=
  match acc with
  | none => some ⟨c.1, c.2, c.1, c.2⟩
  | some e => some ⟨min e.minX c.1, min e.minY c.2, max e.maxX c.1, max e.maxY c.2⟩

/-- Modelled from the spec: boundingExtent of a list of coordinates. -/
def boundingExtent (cs : List Coord) : Option Extent :=
  cs.foldl extendCoord none

/-- Modelled from the spec: extent intersection test; the empty extent
intersects nothing (its inverted infinite corners fail every comparison). -/
def intersectsB (a b : Option Extent) : Bool :=
  match a, b with
  | some a, some b =>
    decide (a.minX ≤ b.maxX) && decide (b.minX ≤ a.maxX) &&
    decide (a.minY ≤ b.maxY) && decide (b.minY ≤ a.maxY)
  | _, _ => false

/-- A coordinate lies inside the closure of an optional extent. -/
def memExtent (c : Coord) (e : Option Extent) : Bool :=
  match e with
  | none => false
  | some e =>
    decide (e.minX ≤ c.1) && decide (c.1 ≤ e.maxX) &&
    decide (e.minY ≤ c.2) && decide (c.2 ≤ e.maxY)

/-- Modelled from the spec: union (extend) of two optional extents. -/
def extendOpt (a b : Option Extent) : Option Extent :=
  match a, b with
  | none, b => b
  | a, none => a
  | some a, some b =>
    some ⟨min a.minX b.minX, min a.minY b.minY, max a.maxX b.maxX, max a.maxY b.maxY⟩

/-- The geometry variants dispatched over by GEOMETRY_SEGMENTERS_.  `unknown`
stands for any further geometry type, which has no segmenter (spec section 4.1:
unrecognized types are silently ignored). -/
inductive Geometry where
  | point : Coord → Geometry
  | lineString : List Coord → Geometry
  | linearRing : List Coord → Geometry
  | polygon : List (List Coord) → Geometry
  | multiPoint : List Coord → Geometry
  | multiLineString : List (List Coord) → Geometry
  | multiPolygon : List (List (List Coord)) → Geometry
  | geometryCollection : List Geometry → Geometry
  | circle : Coord → ℚ → Geometry
  | unknown : Geometry

mutual

/-- geometry.getExtent() as used by addFeature: the bounding extent of the
coordinates of the geometry; a circle extent is center plus/minus radius, and a
collection extent is the union of the member extents. -/
def Geometry.getExtent : Geometry → Option Extent
  | .point c => boundingExtent [c]
  | .lineString cs => boundingExtent cs
  | .linearRing cs => boundingExtent cs
  | .polygon rs => boundingExtent rs.flatten
  | .multiPoint cs => boundingExtent cs
  | .multiLineString ls => boundingExtent ls.flatten
  | .multiPolygon ps => boundingExtent (ps.map List.flatten).flatten
  | .geometryCollection gs => Geometry.extentList gs
  | .circle c r => some ⟨c.1 - r, c.2 - r, c.1 + r, c.2 + r⟩
  | .unknown => none

/-- Union of the extents of a list of geometries. -/
def Geometry.extentList : List Geometry → Option Extent
  | [] => none
  | g :: gs => extendOpt g.getExtent (Geometry.extentList gs)

end

mutual

/-- Circle radii are nonnegative, recursively through collections (a basic
well-formedness condition on geometries). -/
def Geometry.wf : Geometry → Bool
  | .circle _ r => decide (0 ≤ r)
  | .geometryCollection gs => Geometry.wfList gs
  | _ => true

def Geometry.wfList : List Geometry → Bool
  | [] => true
  | g :: gs => g.wf && Geometry.wfList gs

end

/-- An optional user projection (spec glossary): coordinate mappings between the
user (display) projection and the view projection, consumed as black boxes.
`fromU` models fromUserCoordinate, `toU` models the transform from the view
projection back to the user projection, and `circT` models the clone-and-
transform of a circle geometry from the user projection into the view
projection. -/
structure UProj where
  fromU : Coord → Coord
  toU : Coord → Coord
  circT : Coord × ℚ → Coord × ℚ

/-- fromUserCoordinate: identity when no user projection is active. -/
def fromUserCoordinate : Option UProj → Coord → Coord
  | none, c => c
  | some u, c => u.fromU c

/-- toUserCoordinate: identity when no user projection is active. -/
def toUserCoordinate : Option UProj → Coord → Coord
  | none, c => c
  | some u, c => u.toU c

/-- Source Snap.prototype.segmentLineStringGemetry_: one two-coordinate segment
per consecutive pair of the coordinates of the geometry (the loop pushes
coordinates.slice(i, i + 2) for i below coordinates.length - 1).  The same
loop body appears inline in the polygon, multi-line-string, multi-polygon and
circle segmenters. -/
def segmentLineStringGemetry_ : List Coord → List (List Coord)
  | a :: b :: rest => [a, b] :: segmentLineStringGemetry_ (b :: rest)
  | _ => []

/-- Source Snap.prototype.segmentPolygonGemetry_ (and the ring loop of the
multi segmenters): concatenation of the line-string rule over the rings. -/
def segsRings (rs : List (List Coord)) : List (List Coord) :=
  (rs.map segmentLineStringGemetry_).flatten

/-- Source Snap.prototype.segmentMultiPolygonGemetry_ body: concatenation of
the ring rule over the polygons. -/
def segsPolys (ps : List (List (List Coord))) : List (List Coord) :=
  (ps.map segsRings).flatten

/-- Modelled from the spec: fromCircle, the externally supplied circle-to-
polygon conversion (ol/geom/Polygon, not under src).  The spec only requires a
closed ring of vertices on the circle boundary, so it is modelled with four
vertices (the closing coordinate repeats the first). -/
def fromCircleRing (c : Coord) (r : ℚ) : List Coord :=
  [(c.1 + r, c.2), (c.1, c.2 + r), (c.1 - r, c.2), (c.1, c.2 - r), (c.1 + r, c.2)]

/-- Source Snap.prototype.segmentCircleGemetry_: if a user projection is
active, the circle is cloned and transformed into the view projection; the
polygon approximation is built there; with a user projection the ring is
transformed back before the consecutive-pair loop runs. -/
def segmentCircleGemetry_ (up : Option UProj) (c : Coord) (r : ℚ) : List (List Coord) :=
  match up with
  | none => segmentLineStringGemetry_ (fromCircleRing c r)
  | some u =>
    let cr := u.circT (c, r)
    segmentLineStringGemetry_ ((fromCircleRing cr.1 cr.2).map u.toU)

mutual

/-- The GEOMETRY_SEGMENTERS_ table of the source, as a closed dispatch: the
segments contributed by one geometry, or `none` when the geometry type has no
segmenter. -/
def segsOf (up : Option UProj) : Geometry → Option (List (List Coord))
  | .point c => some [[c]]
  | .lineString cs => some (segmentLineStringGemetry_ cs)
  | .linearRing cs => some (segmentLineStringGemetry_ cs)
  | .polygon rs => some (segsRings rs)
  | .multiPoint cs => some (cs.map (fun p => [p]))
  | .multiLineString ls => some (segsRings ls)
  | .multiPolygon ps => some (segsPolys ps)
  | .geometryCollection gs => some (segsOfList up gs)
  | .circle c r => some (segmentCircleGemetry_ up c r)
  | .unknown => none

/-- Source Snap.prototype.segmentGeometryCollectionGemetry_: members without a
segmenter are skipped. -/
def segsOfList (up : Option UProj) : List Geometry → List (List Coord)
  | [] => []
  | g :: gs => (segsOf up g).getD [] ++ segsOfList up gs

end

/-- A feature: a stable identity (getUid) plus a mutable geometry, modelled as
a snapshot.  Features are externally owned; JS reference equality between
features is modelled as equality of uids, which is faithful because getUid is
injective on live objects. -/
structure Feature where
  uid : Nat
  geometry : Option Geometry

/-- getUid of the source (ol/util.js): the stable identity of a feature. -/
def getUid (f : Feature) : Nat := f.uid

/-- The SegmentData payload stored in the RBush: feature reference plus
segment. -/
structure SegmentData where
  feature : Feature
  segment : List Coord

/-- One RBush node: bounding extent plus payload.  Modelled from the spec
(section 4.2): the index is a bag of extent/payload pairs; queries return every
intersecting entry. -/
abbrev RBushT := List (Option Extent × SegmentData)

/-- rBush.getInExtent(extent): all payloads whose box intersects the query
extent (exhaustive, per the spec contract for the index). -/
def getInExtent (r : RBushT) (box : Option Extent) : List SegmentData :=
  (r.filter (fun e => intersectsB e.1 box)).map Prod.snd

/-- The index-side mutable state of the Snap interaction: the RBush, the
Extent Ledger (indexedFeaturesExtents_), the per-feature change-listener keys
(featureChangeListenerKeys_, modelled as the set of listened uids) and the
number of collection/source listener keys (featuresListenerKeys_). -/
structure CoreState where
  rBush : RBushT
  indexedFeaturesExtents : List (Nat × Option Extent)
  featureChangeListenerKeys : List Nat
  featuresListenerCount : Nat

/-- Key-replacing insertion into an association list (JS object assignment). -/
def insertKey (l : List (Nat × α)) (k : Nat) (v : α) : List (Nat × α) :=
  (k, v) :: l.filter (fun p => p.1 != k)

/-- Source Snap.prototype.addFeature.  The ledger entry and the index entries
are only created when the feature has a geometry and the geometry type has a
segmenter; one segment is inserted singly, several are bulk-loaded (both are
modelled as appending the corresponding nodes).  When opt_listen is not false,
a change listener is registered under the feature uid. -/
def addFeature (up : Option UProj) (st : CoreState) (f : Feature)
    (optListen : Option Bool) : CoreState :=
  let st1 :=
    match f.geometry with
    | none => st
    | some g =>
      match segsOf up g with
      | none => st
      | some segments =>
        let st' := { st with
          indexedFeaturesExtents :=
            insertKey st.indexedFeaturesExtents f.uid g.getExtent }
        { st' with
          rBush := st'.rBush ++
            segments.map (fun s => (boundingExtent s, ⟨f, s⟩)) }
  if optListen.getD true then
    { st1 with
      featureChangeListenerKeys :=
        f.uid :: st1.featureChangeListenerKeys.filter (fun u => u != f.uid) }
  else st1

/-- Source Snap.prototype.removeFeature.  The ledgered extent scopes the
removal query; collected nodes are those intersecting that extent whose
feature is the removed feature (JS reference identity, i.e. same uid), and
removing each collected node amounts to filtering them out.  The ledger entry
itself is not touched.  When opt_unlisten is not false the change listener is
released (releasing a missing listener is a no-op). -/
def removeFeature (st : CoreState) (f : Feature)
    (optUnlisten : Option Bool) : CoreState :=
  let st1 :=
    match st.indexedFeaturesExtents.lookup f.uid with
    | none => st
    | some extent =>
      { st with
        rBush := st.rBush.filter
          (fun e => !(intersectsB e.1 extent && e.2.feature.uid == f.uid)) }
  if optUnlisten.getD true then
    { st1 with
      featureChangeListenerKeys :=
        st1.featureChangeListenerKeys.filter (fun u => u != f.uid) }
  else st1

/-- Source Snap.prototype.updateFeature_: remove then re-add, both without
touching the change subscription. -/
def updateFeature_ (up : Option UProj) (st : CoreState) (f : Feature) : CoreState :=
  addFeature up (removeFeature st f (some false)) f (some false)

/-- The full interaction state: index state, the Pending Set
(pendingFeatures_) and the gesture flag (handlingDownUpSequence, owned by the
Pointer base class). -/
structure SnapState where
  core : CoreState
  pendingFeatures : List (Nat × Feature)
  handlingDownUpSequence : Bool

/-- Source Snap.prototype.handleFeatureChange_: while a down-up gesture is
active the feature is inserted into the Pending Set keyed by uid unless
already present; otherwise it is re-indexed immediately. -/
def handleFeatureChange_ (up : Option UProj) (st : SnapState) (f : Feature) : SnapState :=
  if st.handlingDownUpSequence then
    if (st.pendingFeatures.lookup f.uid).isSome then st
    else { st with pendingFeatures := st.pendingFeatures ++ [(f.uid, f)] }
  else { st with core := updateFeature_ up st.core f }

/-- Source Snap.prototype.handleUpEvent: update every pending feature, then
clear the Pending Set (only when it is nonempty; the source then returns
false, which is not modelled). -/
def handleUpEvent (up : Option UProj) (st : SnapState) : SnapState :=
  let featuresToUpdate := st.pendingFeatures.map Prod.snd
  if featuresToUpdate.length ≠ 0 then
    { st with
      core := featuresToUpdate.foldl (fun c f => updateFeature_ up c f) st.core,
      pendingFeatures := [] }
  else st

/-- Source Snap.prototype.getFeatures_: the explicit collection if configured,
else the features of the source if configured, else undefined (modelled as
`none`). -/
def getFeatures_ (featuresOpt sourceOpt : Option (List Feature)) :
    Option (List Feature) :=
  match featuresOpt with
  | some fs => some fs
  | none => sourceOpt

/-- Source Snap.prototype.setMap.  `hadMap` tells whether the interaction was
attached to a map before the call and `hasMap` whether the new map is non-null.
When neither a collection nor a source is configured, getFeatures_ yields
undefined and the source calls features.forEach on it, which throws a
TypeError; this is modelled as an Except error. -/
def setMap (up : Option UProj) (featuresOpt sourceOpt : Option (List Feature))
    (st : CoreState) (hadMap hasMap : Bool) : Except String CoreState :=
  let fs? := getFeatures_ featuresOpt sourceOpt
  let step1 : Except String CoreState :=
    if hadMap then
      match fs? with
      | none => Except.error "TypeError: features is undefined"
      | some fs =>
        Except.ok (fs.foldl (fun s f => removeFeature s f none)
          { st with featuresListenerCount := 0 })
    else Except.ok st
  match step1 with
  | Except.error e => Except.error e
  | Except.ok st1 =>
    if hasMap then
      let st2 :=
        if featuresOpt.isSome || sourceOpt.isSome then
          { st1 with featuresListenerCount := st1.featuresListenerCount + 2 }
        else st1
      match fs? with
      | none => Except.error "TypeError: features is undefined"
      | some fs => Except.ok (fs.foldl (fun s f => addFeature up s f none) st2)
    else Except.ok st1

/-- The black-box map viewport service (spec section 1): pixel-to-coordinate
and coordinate-to-pixel conversion for the current view. -/
structure MapModel where
  coordFromPixel : Coord → Coord
  pixelFromCoord : Coord → Coord

/-- JS Math.round: floor of the value plus one half. -/
def jsRound (q : ℚ) : ℤ := Int.floor (q + 1 / 2)

/-- The snap Result: snapped vertex plus its rounded screen pixel. -/
structure Result where
  vertex : Coord
  vertexPixel : ℤ × ℤ
deriving DecidableEq

/-- The getResult closure inside Snap.prototype.snapTo: if a closest candidate
exists, convert it to a screen pixel and accept it when the squared pixel
distance to the pointer pixel is at most the squared pixel tolerance. -/
def getResult (m : MapModel) (pixel : Coord) (sqTol : ℚ)
    (closestVertex : Option Coord) : Option Result :=
  match closestVertex with
  | none => none
  | some v =>
    let vertexPixel := m.pixelFromCoord v
    if squaredDistance pixel vertexPixel ≤ sqTol then
      some ⟨v, (jsRound vertexPixel.1, jsRound vertexPixel.2)⟩
    else none

/-- The feature currently carries a Circle geometry (the getType() test of the
source; a feature without geometry would throw there and is treated as
non-circle). -/
def Feature.isCircle (f : Feature) : Bool :=
  match f.geometry with
  | some (.circle _ _) => true
  | _ => false

/-- One step of the running strict minimum (closestVertex, minSquaredDistance):
a new candidate replaces the running one only when strictly closer; the
missing accumulator models the initial Infinity. -/
def accUpdate (acc : Option (Coord × ℚ)) (v : Coord) (d : ℚ) :
    Option (Coord × ℚ) :=
  match acc with
  | none => some (v, d)
  | some p => if d < p.2 then some (v, d) else some p

/-- The vertex pass loop of snapTo: every vertex of every non-circle candidate,
measured by squared data-space distance between the projected query coordinate
and the projected vertex; the stored coordinate is the unprojected vertex. -/
def vertexFold (up : Option UProj) (projCoord : Coord)
    (acc0 : Option (Coord × ℚ)) (segments : List SegmentData) :
    Option (Coord × ℚ) :=
  segments.foldl
    (fun acc sd =>
      if sd.feature.isCircle then acc
      else
        sd.segment.foldl
          (fun acc2 v =>
            accUpdate acc2 v (squaredDistance projCoord (fromUserCoordinate up v)))
          acc)
    acc0

/-- The edge candidate of one entry in the edge pass of snapTo: for a Circle
feature the closest point on the circle boundary (computed by the black-box
closestOnCircle `cc`, on the circle transformed into the view projection when a
user projection is active, the result mapped back); otherwise the closest
point on the segment, provided the segment has a second coordinate. -/
def edgeCandidate (up : Option UProj) (cc : Coord → Coord × ℚ → Coord)
    (projCoord : Coord) (sd : SegmentData) : Option Coord :=
  match sd.feature.geometry with
  | some (.circle c r) =>
    let cg := match up with
      | none => (c, r)
      | some u => u.circT (c, r)
    some (toUserCoordinate up (cc projCoord cg))
  | _ =>
    match sd.segment with
    | s0 :: s1 :: _ =>
      some (closestOnSegment projCoord
        (fromUserCoordinate up s0, fromUserCoordinate up s1))
    | _ => none

/-- The edge pass loop of snapTo, continuing from the running minimum left by
the vertex pass. -/
def edgeFold (up : Option UProj) (cc : Coord → Coord × ℚ → Coord)
    (projCoord : Coord) (acc0 : Option (Coord × ℚ))
    (segments : List SegmentData) : Option (Coord × ℚ) :=
  segments.foldl
    (fun acc sd =>
      match edgeCandidate up cc projCoord sd with
      | none => acc
      | some v => accUpdate acc v (squaredDistance projCoord v))
    acc0

/-- The data-space search box of snapTo: the pixel box of twice the tolerance
around the pointer pixel, its corners converted to data coordinates. -/
def snapQueryBox (m : MapModel) (tol : ℚ) (pixel : Coord) : Option Extent :=
  boundingExtent
    [m.coordFromPixel (pixel.1 - tol, pixel.2 + tol),
     m.coordFromPixel (pixel.1 + tol, pixel.2 - tol)]

/-- Source Snap.prototype.snapTo: query the index with the search box; return
none when no candidate; otherwise run the vertex pass (when enabled) and
return its result immediately when it qualifies; otherwise run the edge pass
(when enabled) on the same running minimum. -/
def snapTo (up : Option UProj) (cc : Coord → Coord × ℚ → Coord) (m : MapModel)
    (vertexB edgeB : Bool) (tol : ℚ) (rBush : RBushT)
    (pixel pixelCoordinate : Coord) : Option Result :=
  let segments := getInExtent rBush (snapQueryBox m tol pixel)
  if segments.length = 0 then none
  else
    let projectedCoordinate := fromUserCoordinate up pixelCoordinate
    let sqTol := tol * tol
    let vacc := if vertexB then vertexFold up projectedCoordinate none segments
      else none
    match (if vertexB then getResult m pixel sqTol (vacc.map Prod.fst) else none) with
    | some r => some r
    | none =>
      if edgeB then
        getResult m pixel sqTol
          ((edgeFold up cc projectedCoordinate vacc segments).map Prod.fst)
      else none

/-- Modelled from the spec, for comparison with the code: the edge pass as the
specification states it, keeping the minimum by data-space squared distance
among the edge candidates only (no carry-over from the vertex pass). -/
def specEdgePassBest (up : Option UProj) (cc : Coord → Coord × ℚ → Coord)
    (projCoord : Coord) (segments : List SegmentData) : Option (Coord × ℚ) :=
  edgeFold up cc projCoord none segments

/-- The combination of two running strict minima: the right one wins only when
strictly smaller (a helper for reasoning about the running minimum of snapTo;
`none` is the initial Infinity). -/
def combine (a b : Option (Coord × ℚ)) : Option (Coord × ℚ) :=
  match a, b with
  | none, b => b
  | some p, none => some p
  | some p, some q => if q.2 < p.2 then some q else some p

/-- An empty index state (a freshly constructed Snap interaction). -/
def emptyCore : CoreState := ⟨[], [], [], 0⟩

/-- A map whose pixel and coordinate spaces agree (one data unit per pixel),
used by the concrete scenarios of the spec. -/
def idMapModel : MapModel := ⟨fun c => c, fun c => c⟩

/-- A stand-in for the black-box closestOnCircle collaborator, used only to
instantiate theorems that treat it as opaque. -/
def ccStub : Coord → Coord × ℚ → Coord := fun _ cg => cg.1

/-- A concrete point feature for the concrete scenarios. -/
def pointFeature0 : Feature := ⟨0, some (.point (1, 2))⟩

/-- The feature of the spec scenario: a segment from (0,0) to (10,0). -/
def lineFeature1 : Feature := ⟨1, some (.lineString [(0, 0), (10, 0)])⟩

/-- The index holding exactly the segment of the spec scenario. -/
def lineRBush : RBushT :=
  [(boundingExtent [(0, 0), (10, 0)], ⟨lineFeature1, [(0, 0), (10, 0)]⟩)]

/-- An interaction state with an empty index, an empty Pending Set and an
active down-up gesture. -/
def snapSt0 : SnapState := ⟨emptyCore, [], true⟩

/-- An anisotropic view transform: ten pixels per data unit on the x axis and
one on the y axis (the spec notes that data space is generally non-uniform in
scale relative to screen space). -/
def anisoMap : MapModel := ⟨fun c => (c.1 / 10, c.2), fun c => (10 * c.1, c.2)⟩

/-- A point feature closer to the query in data space than any edge candidate
of the carry-over scenario. -/
def pointFeatureA : Feature := ⟨2, some (.point (9/20, 7/2))⟩

/-- A horizontal segment feature for the carry-over scenario. -/
def lineFeatureB : Feature := ⟨3, some (.lineString [(0, 4), (1, 4)])⟩

/-- An index holding the blocking point feature and the segment. -/
def blockRBush : RBushT :=
  [(boundingExtent [(9/20, 7/2)], ⟨pointFeatureA, [(9/20, 7/2)]⟩),
   (boundingExtent [(0, 4), (1, 4)], ⟨lineFeatureB, [(0, 4), (1, 4)]⟩)]
/-- C6: for every LineString or LinearRing geometry with N coordinates,
segmentation yields exactly N - 1 segments when N is at least 2 (one segment
for each consecutive coordinate pair, in order), and 0 segments when N is
below 2.  The function is total, so segmentation never throws. -/
theorem segmentLineString_count (cs : List Coord) :
    (segmentLineStringGemetry_ cs).length = cs.length - 1 ∧
    (cs.length < 2 → segmentLineStringGemetry_ cs = []) ∧
    (∀ i a b, cs[i]? = some a → cs[i + 1]? = some b →
      (segmentLineStringGemetry_ cs)[i]? = some [a, b]) := by
  refine ⟨?_, ?_, ?_⟩
  · induction cs with
    | nil => rfl
    | cons a t ih =>
      cases t with
      | nil => rfl
      | cons b t2 =>
        simp only [segmentLineStringGemetry_, List.length_cons] at ih ⊢
        omega
  · intro h
    match cs, h with
    | [], _ => rfl
    | [a], _ => rfl
  · induction cs with
    | nil => intro i a b ha; simp at ha
    | cons x t ih =>
      intro i a b ha hb
      cases t with
      | nil =>
        cases i with
        | zero => simp at hb
        | succ j => simp at hb
      | cons y t2 =>
        cases i with
        | zero =>
          simp only [List.getElem?_cons_zero, Option.some_inj] at ha
          simp only [List.getElem?_cons_succ, List.getElem?_cons_zero,
            Option.some_inj] at hb
          subst ha; subst hb
          simp [segmentLineStringGemetry_]
        | succ j =>
          rw [List.getElem?_cons_succ] at ha hb
          simpa only [segmentLineStringGemetry_, List.getElem?_cons_succ]
            using ih j a b ha hb

/-- Witness for C6 at a concrete three-coordinate line string. -/
theorem segmentLineString_count_witness :
    (segmentLineStringGemetry_ [((0 : ℚ), (0 : ℚ)), (1, 0), (2, 0)]).length = 2 ∧
    (segmentLineStringGemetry_ [((0 : ℚ), (0 : ℚ)), (1, 0), (2, 0)])[1]? =
      some [(1, 0), (2, 0)] := by
  constructor
  · simpa using (segmentLineString_count [((0 : ℚ), (0 : ℚ)), (1, 0), (2, 0)]).1
  · exact (segmentLineString_count [((0 : ℚ), (0 : ℚ)), (1, 0), (2, 0)]).2.2 1
      (1, 0) (2, 0) rfl rfl


/-- C5: in the tolerance check of snapTo (the getResult closure), a candidate
whose squared pixel distance to the pointer equals the squared tolerance
qualifies (the comparison is not strict), while a candidate one pixel beyond
the tolerance does not qualify. -/
theorem tolerance_boundary (m : MapModel) (pixel : Coord) (tol : ℚ) (v w : Coord)
    (h0 : 0 ≤ tol)
    (hv : squaredDistance pixel (m.pixelFromCoord v) = tol * tol)
    (hw : squaredDistance pixel (m.pixelFromCoord w) = (tol + 1) * (tol + 1)) :
    getResult m pixel (tol * tol) (some v) =
      some ⟨v, (jsRound (m.pixelFromCoord v).1, jsRound (m.pixelFromCoord v).2)⟩ ∧
    getResult m pixel (tol * tol) (some w) = none := by
  constructor
  · simp [getResult, hv]
  · have hlt : ¬ (tol + 1) * (tol + 1) ≤ tol * tol := by nlinarith
    simp [getResult, hw, hlt]

/-- Witness for C5: pointer at the origin, tolerance 10, candidates at pixel
distance exactly 10 and exactly 11. -/
theorem tolerance_boundary_witness :
    (0 : ℚ) ≤ 10 ∧
    getResult idMapModel (0, 0) (10 * 10) (some (10, 0)) =
      some ⟨(10, 0), (10, 0)⟩ ∧
    getResult idMapModel (0, 0) (10 * 10) (some (11, 0)) = none := by
  have hv : squaredDistance (0, 0) (idMapModel.pixelFromCoord ((10 : ℚ), (0 : ℚ))) = 10 * 10 := by
    norm_num [squaredDistance, idMapModel]
  have hw : squaredDistance (0, 0) (idMapModel.pixelFromCoord ((11 : ℚ), (0 : ℚ))) = (10 + 1) * (10 + 1) := by
    norm_num [squaredDistance, idMapModel]
  have h := tolerance_boundary idMapModel (0, 0) 10 (10, 0) (11, 0) (by norm_num) hv hw
  refine ⟨by norm_num, h.1.trans ?_, h.2⟩
  norm_num [idMapModel, jsRound]

/-- C1: whenever vertex snapping is enabled and the vertex pass produces a
qualifying result (a minimum-distance vertex whose squared pixel distance to
the pointer is within the squared tolerance), snapTo returns exactly that
result, whatever the edge flag is — the edge pass is never consulted, even if
an edge point is closer in data space. -/
theorem vertex_pass_priority (up : Option UProj) (cc : Coord → Coord × ℚ → Coord)
    (m : MapModel) (tol : ℚ) (rBush : RBushT) (pixel pc : Coord) (r : Result)
    (h : getResult m pixel (tol * tol)
      ((vertexFold up (fromUserCoordinate up pc) none
        (getInExtent rBush (snapQueryBox m tol pixel))).map Prod.fst) = some r) :
    ∀ edgeB : Bool, snapTo up cc m true edgeB tol rBush pixel pc = some r := by
  intro edgeB
  have hlen : ¬ (getInExtent rBush (snapQueryBox m tol pixel)).length = 0 := by
    intro hl
    rw [List.length_eq_zero.mp hl] at h
    simp [vertexFold, getResult] at h
  simp only [snapTo, if_neg hlen, if_true]
  rw [h]

/-- Witness for C1, the scenario of the spec: segment from (0,0) to (10,0),
query point (0.4, 0.01), one data unit per pixel, tolerance 10; the vertex
pass qualifies with vertex (0,0) and snapTo returns it with both passes
enabled, although the perpendicular edge point (0.4, 0) is closer. -/
theorem vertex_pass_priority_witness :
    getResult idMapModel (2/5, 1/100) (10 * 10)
      ((vertexFold none (fromUserCoordinate none (2/5, 1/100)) none
        (getInExtent lineRBush (snapQueryBox idMapModel 10 (2/5, 1/100)))).map
          Prod.fst) = some ⟨(0, 0), (0, 0)⟩ ∧
    snapTo none ccStub idMapModel true true 10 lineRBush (2/5, 1/100) (2/5, 1/100) =
      some ⟨(0, 0), (0, 0)⟩ := by
  have h : getResult idMapModel (2/5, 1/100) (10 * 10)
      ((vertexFold none (fromUserCoordinate none (2/5, 1/100)) none
        (getInExtent lineRBush (snapQueryBox idMapModel 10 (2/5, 1/100)))).map
          Prod.fst) = some ⟨(0, 0), (0, 0)⟩ := by
    norm_num [getResult, getInExtent, lineRBush, snapQueryBox, idMapModel,
      boundingExtent, extendCoord, intersectsB, List.filter, vertexFold,
      accUpdate, fromUserCoordinate, squaredDistance, jsRound, lineFeature1,
      Feature.isCircle]
  exact ⟨h, vertex_pass_priority none ccStub idMapModel 10 lineRBush (2/5, 1/100)
    (2/5, 1/100) ⟨(0, 0), (0, 0)⟩ h true⟩

/-- An entry whose feature is not a Circle and whose segment has fewer than
two coordinates contributes no edge candidate (the source reads the second
destructured coordinate only after checking it exists). -/
theorem edgeCandidate_none_of_short (up : Option UProj)
    (cc : Coord → Coord × ℚ → Coord) (q : Coord) (sd : SegmentData)
    (hnc : ∀ c r, sd.feature.geometry ≠ some (.circle c r))
    (hlen : sd.segment.length ≤ 1) :
    edgeCandidate up cc q sd = none := by
  rcases sd with ⟨⟨u, geo⟩, seg⟩
  have hseg : seg = [] ∨ ∃ p, seg = [p] := by
    cases seg with
    | nil => exact Or.inl rfl
    | cons p t =>
      cases t with
      | nil => exact Or.inr ⟨p, rfl⟩
      | cons p2 t2 => simp at hlen
  cases geo with
  | none => rcases hseg with rfl | ⟨p, rfl⟩ <;> rfl
  | some g =>
    cases g with
    | circle c r => exact absurd rfl (hnc c r)
    | point c => rcases hseg with rfl | ⟨p, rfl⟩ <;> rfl
    | lineString cs => rcases hseg with rfl | ⟨p, rfl⟩ <;> rfl
    | linearRing cs => rcases hseg with rfl | ⟨p, rfl⟩ <;> rfl
    | polygon rs => rcases hseg with rfl | ⟨p, rfl⟩ <;> rfl
    | multiPoint cs => rcases hseg with rfl | ⟨p, rfl⟩ <;> rfl
    | multiLineString ls => rcases hseg with rfl | ⟨p, rfl⟩ <;> rfl
    | multiPolygon ps => rcases hseg with rfl | ⟨p, rfl⟩ <;> rfl
    | geometryCollection gs => rcases hseg with rfl | ⟨p, rfl⟩ <;> rfl
    | unknown => rcases hseg with rfl | ⟨p, rfl⟩ <;> rfl

/-- Membership in a query result comes from membership in the index. -/
theorem mem_of_mem_getInExtent {r : RBushT} {box : Option Extent}
    {sd : SegmentData} (h : sd ∈ getInExtent r box) :
    ∃ e ∈ r, intersectsB e.1 box = true ∧ e.2 = sd := by
  rcases List.mem_map.mp h with ⟨e, he, rfl⟩
  rcases List.mem_filter.mp he with ⟨hmem, hint⟩
  exact ⟨e, hmem, hint, rfl⟩

/-- C10: the edge pass reads the second segment coordinate only when it
exists: a singleton (point-geometry) segment contributes no edge candidate
(so no out-of-bounds access can occur, the access being guarded), and an
index holding only non-circle entries with singleton segments can never be
snapped to with the vertex pass disabled — point features are reachable only
through the vertex pass. -/
theorem singleton_segments_edge_pass (up : Option UProj)
    (cc : Coord → Coord × ℚ → Coord) (m : MapModel) (tol : ℚ) (rBush : RBushT)
    (pixel pc : Coord) :
    (∀ (q : Coord) (sd : SegmentData) (p : Coord), sd.segment = [p] →
      (∀ c r, sd.feature.geometry ≠ some (.circle c r)) →
      edgeCandidate up cc q sd = none) ∧
    ((∀ e ∈ rBush, (∀ c r, (e.2).feature.geometry ≠ some (Geometry.circle c r)) ∧
        (e.2).segment.length ≤ 1) →
      snapTo up cc m false true tol rBush pixel pc = none) := by
  constructor
  · intro q sd p hp hnc
    exact edgeCandidate_none_of_short up cc q sd hnc (by rw [hp]; simp)
  · intro hAll
    by_cases hlen : (getInExtent rBush (snapQueryBox m tol pixel)).length = 0
    · simp only [snapTo, if_pos hlen]
    · have hfold : ∀ (segs : List SegmentData),
          (∀ sd ∈ segs, edgeCandidate up cc (fromUserCoordinate up pc) sd = none) →
          edgeFold up cc (fromUserCoordinate up pc) none segs = none := by
        intro segs
        induction segs with
        | nil => intro _; rfl
        | cons sd t ih =>
          intro hsegs
          have h1 := hsegs sd (List.mem_cons_self sd t)
          have := ih (fun x hx => hsegs x (List.mem_cons_of_mem sd hx))
          simp only [edgeFold, List.foldl_cons, h1] at this ⊢
          exact this
      have hnone : edgeFold up cc (fromUserCoordinate up pc) none
          (getInExtent rBush (snapQueryBox m tol pixel)) = none := by
        apply hfold
        intro sd hsd
        rcases mem_of_mem_getInExtent hsd with ⟨e, he, _, rfl⟩
        exact edgeCandidate_none_of_short up cc _ _ (hAll e he).1 (hAll e he).2
      simp only [snapTo, if_neg hlen, Bool.false_eq_true, if_false, hnone]
      rfl

/-- Witness for C10: a single point entry, vertex pass disabled. -/
theorem singleton_segments_edge_pass_witness :
    edgeCandidate none ccStub (0, 0) ⟨pointFeature0, [(1, 2)]⟩ = none ∧
    snapTo none ccStub idMapModel false true 10
      [(boundingExtent [(1, 2)], ⟨pointFeature0, [(1, 2)]⟩)] (1, 2) (1, 2) = none := by
  constructor
  · exact (singleton_segments_edge_pass none ccStub idMapModel 10 [] (0, 0) (0, 0)).1
      (0, 0) ⟨pointFeature0, [(1, 2)]⟩ (1, 2) rfl (by intro c r h; simp [pointFeature0] at h)
  · exact (singleton_segments_edge_pass none ccStub idMapModel 10
      [(boundingExtent [(1, 2)], ⟨pointFeature0, [(1, 2)]⟩)] (1, 2) (1, 2)).2
      (by intro e he; refine ⟨?_, ?_⟩ <;> simp at he <;> simp [he, pointFeature0])

/-- Counterexample for C9: with neither a feature collection nor a source
configured, attaching the interaction to a map does raise an error — the
undefined feature list is iterated, a TypeError — contradicting the claim that
attaching raises no error. -/
theorem setMap_neither_throws :
    setMap none none none emptyCore false true =
      Except.error "TypeError: features is undefined" := rfl

/-- C9 (amended): when neither an explicit feature collection nor a feature
source is configured, the engine indexes nothing and every snap query over the
empty index returns none; attaching to a map, however, raises a TypeError
while iterating the undefined feature list instead of completing cleanly. -/
theorem neither_configured_behavior (up : Option UProj)
    (featuresOpt sourceOpt : Option (List Feature)) (st : CoreState)
    (hf : featuresOpt = none) (hs : sourceOpt = none) :
    (∀ (cc : Coord → Coord × ℚ → Coord) (m : MapModel) (vertexB edgeB : Bool)
      (tol : ℚ) (pixel pc : Coord),
      snapTo up cc m vertexB edgeB tol ([] : RBushT) pixel pc = none) ∧
    setMap up featuresOpt sourceOpt st false true =
      Except.error "TypeError: features is undefined" := by
  subst hf; subst hs
  exact ⟨fun cc m vB eB tol pixel pc => rfl, rfl⟩

/-- Witness for C9 at concrete inputs. -/
theorem neither_configured_behavior_witness :
    snapTo none ccStub idMapModel true true 10 ([] : RBushT) (0, 0) (0, 0) = none ∧
    setMap none none none emptyCore false true =
      Except.error "TypeError: features is undefined" :=
  ⟨(neither_configured_behavior none none none emptyCore rfl rfl).1 ccStub
      idMapModel true true 10 (0, 0) (0, 0),
    (neither_configured_behavior none none none emptyCore rfl rfl).2⟩

/-- Counterexample for C8: adding a feature without geometry records no Extent
Ledger slot at all (the source writes the ledger only inside the geometry and
segmenter guards), contradicting the claim that an empty slot is recorded. -/
theorem addFeature_no_geometry_no_slot :
    ((addFeature none emptyCore ⟨5, none⟩ none).indexedFeaturesExtents).lookup 5 =
      none := rfl

/-- C8 (amended): a feature with no geometry, or whose geometry type has no
segmenter, is registered by addFeature with zero index entries and no Extent
Ledger slot; a later removeFeature on it is nevertheless a defined no-op on
the index state, because the missing ledger entry short-circuits removal. -/
theorem unsegmentable_add_remove_noop (up : Option UProj) (st : CoreState)
    (f : Feature) (optL optU : Option Bool)
    (hg : f.geometry = none ∨ ∃ g, f.geometry = some g ∧ segsOf up g = none)
    (hl : st.indexedFeaturesExtents.lookup f.uid = none) :
    (addFeature up st f optL).rBush = st.rBush ∧
    (addFeature up st f optL).indexedFeaturesExtents = st.indexedFeaturesExtents ∧
    (removeFeature (addFeature up st f optL) f optU).rBush = st.rBush ∧
    (removeFeature (addFeature up st f optL) f optU).indexedFeaturesExtents =
      st.indexedFeaturesExtents := by
  have hadd : (addFeature up st f optL).rBush = st.rBush ∧
      (addFeature up st f optL).indexedFeaturesExtents =
        st.indexedFeaturesExtents := by
    rcases hg with hg | ⟨g, hg, hsg⟩
    · constructor <;> (simp only [addFeature, hg]; split <;> rfl)
    · constructor <;> (simp only [addFeature, hg, hsg]; split <;> rfl)
  refine ⟨hadd.1, hadd.2, ?_, ?_⟩
  · simp only [removeFeature, hadd.2, hl]
    split <;> simp [hadd.1]
  · simp only [removeFeature, hadd.2, hl]
    split <;> simp [hadd.2]

/-- Witness for C8 on a feature without geometry and on a feature with an
unrecognized geometry type. -/
theorem unsegmentable_add_remove_noop_witness :
    ((⟨5, none⟩ : Feature).geometry = none ∨
      ∃ g, (⟨5, none⟩ : Feature).geometry = some g ∧ segsOf none g = none) ∧
    (removeFeature (addFeature none emptyCore ⟨5, none⟩ none) ⟨5, none⟩ none).rBush =
      emptyCore.rBush ∧
    (removeFeature (addFeature none emptyCore ⟨6, some .unknown⟩ none)
      ⟨6, some .unknown⟩ none).indexedFeaturesExtents =
        emptyCore.indexedFeaturesExtents := by
  refine ⟨Or.inl rfl, ?_, ?_⟩
  · exact (unsegmentable_add_remove_noop none emptyCore ⟨5, none⟩ none none
      (Or.inl rfl) rfl).2.2.1
  · exact (unsegmentable_add_remove_noop none emptyCore ⟨6, some .unknown⟩ none none
      (Or.inr ⟨.unknown, rfl, rfl⟩) rfl).2.2.2

/-- Every coordinate of a consecutive-pair segment is a coordinate of the
source list. -/
theorem mem_of_mem_segLS {cs s : List Coord}
    (hs : s ∈ segmentLineStringGemetry_ cs) : ∀ c ∈ s, c ∈ cs := by
  induction cs with
  | nil => simp [segmentLineStringGemetry_] at hs
  | cons a t ih =>
    cases t with
    | nil => simp [segmentLineStringGemetry_] at hs
    | cons b t2 =>
      simp only [segmentLineStringGemetry_] at hs
      rcases List.mem_cons.mp hs with rfl | hs2
      · intro c hc
        rcases List.mem_cons.mp hc with rfl | hc2
        · exact List.mem_cons_self _ _
        · rcases List.mem_cons.mp hc2 with rfl | hc3
          · exact List.mem_cons_of_mem _ (List.mem_cons_self _ _)
          · simp at hc3
      · intro c hc
        exact List.mem_cons_of_mem _ (ih hs2 c hc)

/-- Consecutive-pair segments are never empty. -/
theorem ne_nil_of_mem_segLS {cs s : List Coord}
    (hs : s ∈ segmentLineStringGemetry_ cs) : s ≠ [] := by
  induction cs with
  | nil => simp [segmentLineStringGemetry_] at hs
  | cons a t ih =>
    cases t with
    | nil => simp [segmentLineStringGemetry_] at hs
    | cons b t2 =>
      simp only [segmentLineStringGemetry_] at hs
      rcases List.mem_cons.mp hs with rfl | hs2
      · simp
      · exact ih hs2

/-- Unpacking membership in an optional extent. -/
theorem memExtent_some_elim {c : Coord} {E : Option Extent}
    (h : memExtent c E = true) :
    ∃ e, E = some e ∧ e.minX ≤ c.1 ∧ c.1 ≤ e.maxX ∧ e.minY ≤ c.2 ∧ c.2 ≤ e.maxY := by
  cases E with
  | none => simp [memExtent] at h
  | some e =>
    simp only [memExtent, Bool.and_eq_true, decide_eq_true_eq] at h
    exact ⟨e, rfl, h.1.1.1, h.1.1.2, h.1.2, h.2⟩

/-- A coordinate stays inside an extent extended by another coordinate. -/
theorem memExtent_extendCoord_self (acc : Option Extent) (c : Coord) :
    memExtent c (extendCoord acc c) = true := by
  cases acc with
  | none => simp [extendCoord, memExtent]
  | some e =>
    simp [extendCoord, memExtent, min_le_right, le_max_right]

/-- Extending an extent keeps every coordinate it already contains. -/
theorem memExtent_extendCoord_mono {c : Coord} {acc : Option Extent} (d : Coord)
    (h : memExtent c acc = true) : memExtent c (extendCoord acc d) = true := by
  obtain ⟨e, rfl, h1, h2, h3, h4⟩ := memExtent_some_elim h
  simp only [extendCoord, memExtent, Bool.and_eq_true, decide_eq_true_eq]
  exact ⟨⟨⟨le_trans (min_le_left _ _) h1, le_trans h2 (le_max_left _ _)⟩,
    le_trans (min_le_left _ _) h3⟩, le_trans h4 (le_max_left _ _)⟩

/-- Folding more coordinates into an extent keeps every coordinate it already
contains. -/
theorem memExtent_foldl {c : Coord} (cs : List Coord) :
    ∀ acc, memExtent c acc = true →
      memExtent c (cs.foldl extendCoord acc) = true := by
  induction cs with
  | nil => intro acc h; simpa using h
  | cons d t ih =>
    intro acc h
    simp only [List.foldl_cons]
    exact ih _ (memExtent_extendCoord_mono d h)

/-- The bounding extent of a coordinate list contains each of its members. -/
theorem memExtent_boundingExtent {c : Coord} {cs : List Coord} (h : c ∈ cs) :
    memExtent c (boundingExtent cs) = true := by
  have main : ∀ (l : List Coord) (acc : Option Extent), c ∈ l →
      memExtent c (l.foldl extendCoord acc) = true := by
    intro l
    induction l with
    | nil => intro acc h0; simp at h0
    | cons a t ih =>
      intro acc h0
      rcases List.mem_cons.mp h0 with rfl | h1
      · simp only [List.foldl_cons]
        exact memExtent_foldl t _ (memExtent_extendCoord_self acc c)
      · simp only [List.foldl_cons]
        exact ih _ h1
  exact main cs none h

/-- The union of two extents contains everything the left one contains. -/
theorem memExtent_extendOpt_left {c : Coord} {a b : Option Extent}
    (h : memExtent c a = true) : memExtent c (extendOpt a b) = true := by
  obtain ⟨ea, rfl, h1, h2, h3, h4⟩ := memExtent_some_elim h
  cases b with
  | none => simpa [extendOpt, memExtent] using ⟨⟨⟨h1, h2⟩, h3⟩, h4⟩
  | some eb =>
    simp only [extendOpt, memExtent, Bool.and_eq_true, decide_eq_true_eq]
    exact ⟨⟨⟨le_trans (min_le_left _ _) h1, le_trans h2 (le_max_left _ _)⟩,
      le_trans (min_le_left _ _) h3⟩, le_trans h4 (le_max_left _ _)⟩

/-- The union of two extents contains everything the right one contains. -/
theorem memExtent_extendOpt_right {c : Coord} {a b : Option Extent}
    (h : memExtent c b = true) : memExtent c (extendOpt a b) = true := by
  obtain ⟨eb, rfl, h1, h2, h3, h4⟩ := memExtent_some_elim h
  cases a with
  | none => simpa [extendOpt, memExtent] using ⟨⟨⟨h1, h2⟩, h3⟩, h4⟩
  | some ea =>
    simp only [extendOpt, memExtent, Bool.and_eq_true, decide_eq_true_eq]
    exact ⟨⟨⟨le_trans (min_le_right _ _) h1, le_trans h2 (le_max_right _ _)⟩,
      le_trans (min_le_right _ _) h3⟩, le_trans h4 (le_max_right _ _)⟩

/-- The modelled circle ring stays inside the circle extent when the radius is
nonnegative. -/
theorem fromCircleRing_bound {c : Coord} {r : ℚ} (hr : 0 ≤ r) :
    ∀ p ∈ fromCircleRing c r,
      memExtent p (Geometry.getExtent (.circle c r)) = true := by
  intro p hp
  simp only [fromCircleRing, List.mem_cons, List.mem_singleton] at hp
  simp only [Geometry.getExtent]
  rcases hp with rfl | rfl | rfl | rfl | rfl | h <;>
    first
    | (simp only [memExtent, Bool.and_eq_true, decide_eq_true_eq]
       exact ⟨⟨⟨by linarith, by linarith⟩, by linarith⟩, by linarith⟩)
    | simp at h

mutual

/-- Every segment produced for a well-formed geometry (with no user
projection) is nonempty and lies inside the extent recorded for the geometry. -/
theorem segsOf_bound (g : Geometry) (hw : g.wf = true) :
    ∀ s ∈ (segsOf none g).getD [],
      s ≠ [] ∧ ∀ c ∈ s, memExtent c g.getExtent = true := by
  cases g with
  | point c0 =>
    intro s hs
    simp only [segsOf, Option.getD_some, List.mem_singleton] at hs
    subst hs
    refine ⟨by simp, ?_⟩
    intro c hc
    simp only [List.mem_singleton] at hc
    subst hc
    simpa only [Geometry.getExtent] using
      memExtent_boundingExtent (List.mem_singleton_self c)
  | lineString cs =>
    intro s hs
    simp only [segsOf, Option.getD_some] at hs
    exact ⟨ne_nil_of_mem_segLS hs, fun c hc => by
      simpa only [Geometry.getExtent] using
        memExtent_boundingExtent (mem_of_mem_segLS hs c hc)⟩
  | linearRing cs =>
    intro s hs
    simp only [segsOf, Option.getD_some] at hs
    exact ⟨ne_nil_of_mem_segLS hs, fun c hc => by
      simpa only [Geometry.getExtent] using
        memExtent_boundingExtent (mem_of_mem_segLS hs c hc)⟩
  | polygon rs =>
    intro s hs
    simp only [segsOf, Option.getD_some, segsRings, List.mem_flatten,
      List.mem_map] at hs
    obtain ⟨l, ⟨ring, hring, rfl⟩, hs2⟩ := hs
    refine ⟨ne_nil_of_mem_segLS hs2, ?_⟩
    intro c hc
    have hcr : c ∈ ring := mem_of_mem_segLS hs2 c hc
    simpa only [Geometry.getExtent] using
      memExtent_boundingExtent (List.mem_flatten.mpr ⟨ring, hring, hcr⟩)
  | multiPoint cs =>
    intro s hs
    simp only [segsOf, Option.getD_some, List.mem_map] at hs
    obtain ⟨p, hp, rfl⟩ := hs
    refine ⟨by simp, ?_⟩
    intro c hc
    simp only [List.mem_singleton] at hc
    subst hc
    simpa only [Geometry.getExtent] using memExtent_boundingExtent hp
  | multiLineString ls =>
    intro s hs
    simp only [segsOf, Option.getD_some, segsRings, List.mem_flatten,
      List.mem_map] at hs
    obtain ⟨l, ⟨line, hline, rfl⟩, hs2⟩ := hs
    refine ⟨ne_nil_of_mem_segLS hs2, ?_⟩
    intro c hc
    have hcr : c ∈ line := mem_of_mem_segLS hs2 c hc
    simpa only [Geometry.getExtent] using
      memExtent_boundingExtent (List.mem_flatten.mpr ⟨line, hline, hcr⟩)
  | multiPolygon ps =>
    intro s hs
    simp only [segsOf, Option.getD_some, segsPolys, segsRings, List.mem_flatten,
      List.mem_map] at hs
    obtain ⟨l, ⟨rings, hrings, rfl⟩, hs1⟩ := hs
    simp only [List.mem_flatten, List.mem_map] at hs1
    obtain ⟨l2, ⟨ring, hring, rfl⟩, hs2⟩ := hs1
    refine ⟨ne_nil_of_mem_segLS hs2, ?_⟩
    intro c hc
    have hcr : c ∈ ring := mem_of_mem_segLS hs2 c hc
    have h1 : c ∈ rings.flatten := List.mem_flatten.mpr ⟨ring, hring, hcr⟩
    have h2 : c ∈ (ps.map List.flatten).flatten :=
      List.mem_flatten.mpr ⟨rings.flatten, List.mem_map_of_mem _ hrings, h1⟩
    simpa only [Geometry.getExtent] using memExtent_boundingExtent h2
  | geometryCollection gs =>
    intro s hs
    simp only [segsOf, Option.getD_some] at hs
    simp only [Geometry.wf] at hw
    have h := segsOfList_bound gs hw s hs
    exact ⟨h.1, fun c hc => by
      simpa only [Geometry.getExtent] using h.2 c hc⟩
  | circle c0 r =>
    intro s hs
    simp only [Geometry.wf, decide_eq_true_eq] at hw
    simp only [segsOf, Option.getD_some, segmentCircleGemetry_] at hs
    refine ⟨ne_nil_of_mem_segLS hs, ?_⟩
    intro c hc
    exact fromCircleRing_bound hw c (mem_of_mem_segLS hs c hc)
  | unknown =>
    intro s hs
    simp [segsOf] at hs

/-- List version of segsOf_bound, against the union extent. -/
theorem segsOfList_bound (gs : List Geometry) (hw : Geometry.wfList gs = true) :
    ∀ s ∈ segsOfList none gs,
      s ≠ [] ∧ ∀ c ∈ s, memExtent c (Geometry.extentList gs) = true := by
  cases gs with
  | nil => intro s hs; simp [segsOfList] at hs
  | cons g gs2 =>
    intro s hs
    simp only [Geometry.wfList, Bool.and_eq_true] at hw
    simp only [segsOfList, List.mem_append] at hs
    rcases hs with hs | hs
    · have h := segsOf_bound g hw.1 s hs
      refine ⟨h.1, fun c hc => ?_⟩
      simp only [Geometry.extentList]
      exact memExtent_extendOpt_left (h.2 c hc)
    · have h := segsOfList_bound gs2 hw.2 s hs
      refine ⟨h.1, fun c hc => ?_⟩
      simp only [Geometry.extentList]
      exact memExtent_extendOpt_right (h.2 c hc)

end

/-- Unpacking the intersection test on two real extents. -/
theorem intersectsB_some_iff {a b : Extent} :
    intersectsB (some a) (some b) = true ↔
      a.minX ≤ b.maxX ∧ b.minX ≤ a.maxX ∧ a.minY ≤ b.maxY ∧ b.minY ≤ a.maxY := by
  simp [intersectsB, and_assoc]

/-- A nonempty segment whose coordinates all lie inside an extent has a
bounding box intersecting that extent. -/
theorem intersects_of_bound {s : List Coord} {E : Option Extent} (hne : s ≠ [])
    (hb : ∀ c ∈ s, memExtent c E = true) :
    intersectsB (boundingExtent s) E = true := by
  obtain ⟨c, t, rfl⟩ := List.exists_cons_of_ne_nil hne
  obtain ⟨e, rfl, he1, he2, he3, he4⟩ :=
    memExtent_some_elim (hb c (List.mem_cons_self c t))
  obtain ⟨bx, hbe, hb1, hb2, hb3, hb4⟩ :=
    memExtent_some_elim (memExtent_boundingExtent (List.mem_cons_self c t))
  rw [hbe, intersectsB_some_iff]
  exact ⟨le_trans hb1 he2, le_trans he1 hb2, le_trans hb3 he4, le_trans he3 hb4⟩

/-- What addFeature does to the index and the ledger when the feature has a
segmentable geometry. -/
theorem addFeature_decomp (up : Option UProj) (st : CoreState) (f : Feature)
    (g : Geometry) (segs : List (List Coord)) (optL : Option Bool)
    (hg : f.geometry = some g) (hsg : segsOf up g = some segs) :
    (addFeature up st f optL).rBush =
      st.rBush ++ segs.map (fun s => (boundingExtent s, ⟨f, s⟩)) ∧
    (addFeature up st f optL).indexedFeaturesExtents =
      insertKey st.indexedFeaturesExtents f.uid g.getExtent := by
  constructor <;> (simp only [addFeature, hg, hsg]; split <;> rfl)

/-- removeFeature never touches the Extent Ledger. -/
theorem removeFeature_ledger (st : CoreState) (f : Feature) (optU : Option Bool) :
    (removeFeature st f optU).indexedFeaturesExtents =
      st.indexedFeaturesExtents := by
  simp only [removeFeature]
  split <;> split <;> rfl

/-- What removeFeature does to the index when the ledger has an entry for the
feature. -/
theorem removeFeature_rBush (st : CoreState) (f : Feature) (optU : Option Bool)
    {E : Option Extent} (hlk : st.indexedFeaturesExtents.lookup f.uid = some E) :
    (removeFeature st f optU).rBush =
      st.rBush.filter
        (fun e => !(intersectsB e.1 E && e.2.feature.uid == f.uid)) := by
  simp only [removeFeature, hlk]
  split <;> rfl

/-- The ledger maps a key to the value it was just given. -/
theorem lookup_insertKey {α : Type} (l : List (Nat × α)) (k : Nat) (v : α) :
    (insertKey l k v).lookup k = some v := by
  simp [insertKey, List.lookup]

/-- Counterexample for C2: adding and then removing a concrete point feature
leaves the index without any entry for the feature, yet the Extent Ledger
still maps its uid — removeFeature does not erase the ledger entry, so the
ledger does not map a feature if and only if it is indexed. -/
theorem removeFeature_keeps_ledger_entry :
    (removeFeature (addFeature none emptyCore pointFeature0 none) pointFeature0
      none).rBush.length = 0 ∧
    ((removeFeature (addFeature none emptyCore pointFeature0 none) pointFeature0
        none).indexedFeaturesExtents).lookup (getUid pointFeature0) =
      some (some ⟨1, 2, 1, 2⟩) := ⟨by decide, by decide⟩

/-- C2 (amended): for every feature currently indexed — its ledgered extent
covering its index entries, as addFeature guarantees when it indexes a
feature — removeFeature removes all of the index entries of the feature, but
does not erase its Extent Ledger entry: the ledger still maps the feature
identity afterwards, so the ledger maps every feature ever indexed, not
exactly the currently indexed ones (the if-and-only-if fails in the
right-to-left direction only). -/
theorem remove_clears_index_not_ledger (st : CoreState) (f : Feature)
    (optU : Option Bool) (E : Option Extent)
    (hlk : st.indexedFeaturesExtents.lookup f.uid = some E)
    (hcov : ∀ e ∈ st.rBush, (e.2).feature.uid = f.uid →
      intersectsB e.1 E = true) :
    ((removeFeature st f optU).rBush.all
      (fun e => (e.2).feature.uid != f.uid)) = true ∧
    (removeFeature st f optU).indexedFeaturesExtents =
      st.indexedFeaturesExtents ∧
    ((removeFeature st f optU).indexedFeaturesExtents).lookup f.uid =
      some E := by
  refine ⟨?_, removeFeature_ledger _ _ _, by rw [removeFeature_ledger]; exact hlk⟩
  rw [List.all_eq_true]
  intro e he
  rw [removeFeature_rBush _ _ _ hlk] at he
  rcases List.mem_filter.mp he with ⟨hmem, hpred⟩
  rw [bne_iff_ne]
  intro huid
  have hint := hcov e hmem huid
  simp [hint, huid] at hpred

/-- Witness for C2 (amended) on the concrete point feature just indexed. -/
theorem remove_clears_index_not_ledger_witness :
    ((removeFeature (addFeature none emptyCore pointFeature0 none) pointFeature0
      none).rBush.all (fun e => (e.2).feature.uid != pointFeature0.uid)) = true ∧
    ((removeFeature (addFeature none emptyCore pointFeature0 none) pointFeature0
        none).indexedFeaturesExtents).lookup pointFeature0.uid =
      some (some ⟨1, 2, 1, 2⟩) := by
  have h := remove_clears_index_not_ledger
    (addFeature none emptyCore pointFeature0 none) pointFeature0 none
    (some ⟨1, 2, 1, 2⟩) (by decide) (by decide)
  exact ⟨h.1, h.2.2⟩

/-- C3: for every feature with a segmentable geometry, after addFeature and
then removeFeature, a spatial-index query over the original extent of the
feature returns no entry referencing the feature. -/
theorem add_remove_query_clean (up : Option UProj) (st : CoreState) (f : Feature)
    (g : Geometry) (segs : List (List Coord)) (optL optU : Option Bool)
    (hg : f.geometry = some g) (hsg : segsOf up g = some segs) :
    ((getInExtent (removeFeature (addFeature up st f optL) f optU).rBush
      g.getExtent).all (fun sd => sd.feature.uid != f.uid)) = true := by
  obtain ⟨hrb, hled⟩ := addFeature_decomp up st f g segs optL hg hsg
  have hlk : (addFeature up st f optL).indexedFeaturesExtents.lookup f.uid =
      some g.getExtent := by
    rw [hled]; exact lookup_insertKey _ _ _
  rw [List.all_eq_true]
  intro sd hsd
  rcases mem_of_mem_getInExtent hsd with ⟨e, he, hint, rfl⟩
  rw [removeFeature_rBush _ _ _ hlk] at he
  rcases List.mem_filter.mp he with ⟨_, hpred⟩
  rw [bne_iff_ne]
  intro huid
  simp [hint, huid] at hpred

/-- Witness for C3 on the concrete line-string feature of the spec scenario. -/
theorem add_remove_query_clean_witness :
    ((getInExtent (removeFeature (addFeature none emptyCore lineFeature1 none)
        lineFeature1 none).rBush
      (Geometry.getExtent (.lineString [(0, 0), (10, 0)]))).all
        (fun sd => sd.feature.uid != lineFeature1.uid)) = true :=
  add_remove_query_clean none emptyCore lineFeature1
    (.lineString [(0, 0), (10, 0)]) [[(0, 0), (10, 0)]] none none rfl rfl

/-- C7: while a down-up gesture is active, any positive number of change
notifications for the same feature leaves exactly one Pending Set entry keyed
by the feature identity (insertion is idempotent), and the pointer-up handler
then calls updateFeature exactly once for that pending feature and clears the
Pending Set, which is therefore empty after the gesture. -/
theorem deferred_batching (up : Option UProj) (st : SnapState) (f : Feature)
    (n : ℕ) (hseq : st.handlingDownUpSequence = true)
    (hp : st.pendingFeatures = []) (hn : 1 ≤ n) :
    ((fun s => handleFeatureChange_ up s f)^[n] st).pendingFeatures =
      [(f.uid, f)] ∧
    handleUpEvent up ((fun s => handleFeatureChange_ up s f)^[n] st) =
      { st with core := updateFeature_ up st.core f, pendingFeatures := [] } := by
  have key : ∀ m : ℕ, (fun s => handleFeatureChange_ up s f)^[m + 1] st =
      { st with pendingFeatures := [(f.uid, f)] } := by
    intro m
    induction m with
    | zero =>
      rw [Function.iterate_succ_apply', Function.iterate_zero_apply]
      simp [handleFeatureChange_, hseq, hp]
    | succ k ih =>
      rw [Function.iterate_succ_apply', ih]
      simp [handleFeatureChange_, hseq]
  obtain ⟨m, rfl⟩ : ∃ m, n = m + 1 := ⟨n - 1, by omega⟩
  rw [key m]
  exact ⟨rfl, rfl⟩

/-- Witness for C7: three change notifications during a gesture collapse to a
single pending entry, flushed exactly once on pointer-up. -/
theorem deferred_batching_witness :
    snapSt0.handlingDownUpSequence = true ∧
    ((fun s => handleFeatureChange_ none s pointFeature0)^[3]
      snapSt0).pendingFeatures = [(pointFeature0.uid, pointFeature0)] ∧
    handleUpEvent none
      ((fun s => handleFeatureChange_ none s pointFeature0)^[3] snapSt0) =
      { snapSt0 with core := updateFeature_ none snapSt0.core pointFeature0, pendingFeatures := [] } := by
  have h := deferred_batching none snapSt0 pointFeature0 3 rfl rfl (by norm_num)
  exact ⟨rfl, h.1, h.2⟩

/-- fromUserCoordinate is the identity without user projection. -/
theorem fromUserCoordinate_none (c : Coord) : fromUserCoordinate none c = c := rfl

/-- One accUpdate step is a combination with a singleton minimum. -/
theorem accUpdate_eq_combine (a : Option (Coord × ℚ)) (v : Coord) (d : ℚ) :
    accUpdate a v d = combine a (some (v, d)) := by
  cases a <;> rfl

/-- The empty minimum is a right unit for combine. -/
theorem combine_none_right (a : Option (Coord × ℚ)) : combine a none = a := by
  cases a <;> rfl

/-- combine is associative (strict minimum with left bias). -/
theorem combine_assoc (a b c : Option (Coord × ℚ)) :
    combine (combine a b) c = combine a (combine b c) := by
  rcases a with _ | ⟨va, da⟩
  · rfl
  · rcases b with _ | ⟨vb, db⟩
    · rfl
    · rcases c with _ | ⟨vc, dc⟩
      · rw [combine_none_right, combine_none_right]
      · simp only [combine]
        by_cases h1 : db < da
        · rw [if_pos h1]
          by_cases h2 : dc < db
          · rw [if_pos h2]
            simp only [combine]
            rw [if_pos h2, if_pos (lt_trans h2 h1)]
          · rw [if_neg h2]
            simp only [combine]
            rw [if_pos h1, if_neg h2]
        · rw [if_neg h1]
          by_cases h2 : dc < db
          · rw [if_pos h2]
          · rw [if_neg h2]
            simp only [combine]
            rw [if_neg h1]
            have h3 : ¬ dc < da := by
              have ha := not_lt.mp h1
              have hb := not_lt.mp h2
              intro hlt
              linarith
            rw [if_neg h3]

/-- A left fold whose step is a combination with the step from the empty
minimum factors through combine. -/
theorem foldl_step_combine {β : Type}
    (step : Option (Coord × ℚ) → β → Option (Coord × ℚ))
    (hstep : ∀ a x, step a x = combine a (step none x)) :
    ∀ (l : List β) (a), l.foldl step a = combine a (l.foldl step none) := by
  intro l
  induction l with
  | nil => intro a; exact (combine_none_right a).symm
  | cons x t ih =>
    intro a
    simp only [List.foldl_cons]
    rw [ih (step a x), hstep a x, combine_assoc, ← ih (step none x)]

/-- The edge pass continued from a carried running minimum equals the carried
minimum combined with the edge pass started from scratch. -/
theorem edgeFold_from (up : Option UProj) (cc : Coord → Coord × ℚ → Coord)
    (q : Coord) (l : List SegmentData) (a : Option (Coord × ℚ)) :
    edgeFold up cc q a l = combine a (edgeFold up cc q none l) := by
  have hstep : ∀ (acc : Option (Coord × ℚ)) (sd : SegmentData),
      (match edgeCandidate up cc q sd with
        | none => acc
        | some v => accUpdate acc v (squaredDistance q v)) =
      combine acc (match edgeCandidate up cc q sd with
        | none => none
        | some v => accUpdate none v (squaredDistance q v)) := by
    intro acc sd
    cases edgeCandidate up cc q sd with
    | none => exact (combine_none_right acc).symm
    | some v => exact accUpdate_eq_combine acc v _
  simp only [edgeFold]
  exact foldl_step_combine _ hstep l a

/-- The stored distance of an accUpdate step is the squared distance of the
stored coordinate (invariant preservation). -/
theorem accUpdate_inv {q : Coord} {a : Option (Coord × ℚ)}
    (ha : ∀ v d, a = some (v, d) → d = squaredDistance q v) (v0 : Coord) :
    ∀ v d, accUpdate a v0 (squaredDistance q v0) = some (v, d) →
      d = squaredDistance q v := by
  intro v d h
  cases a with
  | none =>
    simp only [accUpdate, Option.some_inj, Prod.mk.injEq] at h
    rw [← h.1, ← h.2]
  | some p =>
    simp only [accUpdate] at h
    split at h
    · simp only [Option.some_inj, Prod.mk.injEq] at h
      rw [← h.1, ← h.2]
    · exact ha v d h

/-- The running minimum of the edge pass always stores the squared distance of
its stored coordinate. -/
theorem edgeFold_inv (up : Option UProj) (cc : Coord → Coord × ℚ → Coord)
    (q : Coord) (l : List SegmentData) :
    ∀ a, (∀ v d, a = some (v, d) → d = squaredDistance q v) →
      ∀ v d, edgeFold up cc q a l = some (v, d) → d = squaredDistance q v := by
  induction l with
  | nil => intro a ha v d h; exact ha v d h
  | cons sd t ih =>
    intro a ha v d h
    refine ih _ ?_ v d h
    intro v1 d1 h1
    cases hc : edgeCandidate up cc q sd with
    | none =>
      simp only [hc] at h1
      exact ha v1 d1 h1
    | some v2 =>
      simp only [hc] at h1
      exact accUpdate_inv ha v2 v1 d1 h1

/-- The running minimum of the vertex pass (without user projection) always
stores the squared distance of its stored coordinate. -/
theorem vertexFold_inv (q : Coord) (l : List SegmentData) :
    ∀ a, (∀ v d, a = some (v, d) → d = squaredDistance q v) →
      ∀ v d, vertexFold none q a l = some (v, d) → d = squaredDistance q v := by
  have inner : ∀ (cs : List Coord) (a : Option (Coord × ℚ)),
      (∀ v d, a = some (v, d) → d = squaredDistance q v) →
      ∀ v d, cs.foldl (fun acc2 v0 =>
          accUpdate acc2 v0 (squaredDistance q (fromUserCoordinate none v0))) a =
            some (v, d) →
        d = squaredDistance q v := by
    intro cs
    induction cs with
    | nil => intro a ha v d h; exact ha v d h
    | cons c0 t ih =>
      intro a ha v d h
      refine ih _ ?_ v d h
      intro v1 d1 h1
      exact accUpdate_inv ha c0 v1 d1 h1
  induction l with
  | nil => intro a ha v d h; exact ha v d h
  | cons sd t ih =>
    intro a ha v d h
    refine ih _ ?_ v d h
    intro v1 d1 h1
    by_cases hcirc : sd.feature.isCircle = true
    · simp only [hcirc, if_true] at h1
      exact ha v1 d1 h1
    · rw [Bool.not_eq_true] at hcirc
      simp only [hcirc, Bool.false_eq_true, if_false] at h1
      exact inner _ a ha v1 d1 h1

/-- Supplementary to the edge-pass correction: under an inactive user
projection and a conformal view transform — squared pixel distance a
nonnegative multiple of squared data distance, as with the pointer pixel at
the pointer coordinate of an unrotated uniform view — the running minimum
carried over from a failed vertex pass can never change the observable
result, and snapTo agrees with the edge pass exactly as the specification
words it. -/
theorem edge_pass_spec (cc : Coord → Coord × ℚ → Coord) (m : MapModel)
    (vertexB : Bool) (tol : ℚ) (rBush : RBushT) (pixel pc : Coord) (k : ℚ)
    (hk0 : 0 ≤ k)
    (hk : ∀ c : Coord, squaredDistance pixel (m.pixelFromCoord c) =
      k * squaredDistance pc c)
    (hv : (if vertexB then
        getResult m pixel (tol * tol)
          ((vertexFold none pc none
            (getInExtent rBush (snapQueryBox m tol pixel))).map Prod.fst)
      else none) = none) :
    snapTo none cc m vertexB true tol rBush pixel pc =
      getResult m pixel (tol * tol)
        ((specEdgePassBest none cc pc
          (getInExtent rBush (snapQueryBox m tol pixel))).map Prod.fst) := by
  by_cases hlen : (getInExtent rBush (snapQueryBox m tol pixel)).length = 0
  · have hnil := List.length_eq_zero.mp hlen
    simp only [snapTo, if_pos hlen]
    rw [hnil]
    rfl
  · cases vertexB with
    | false =>
      simp only [snapTo, if_neg hlen, Bool.false_eq_true, if_false, if_true,
        fromUserCoordinate_none, specEdgePassBest]
    | true =>
      simp only [if_true] at hv
      simp only [snapTo, if_neg hlen, if_true, fromUserCoordinate_none, hv,
        specEdgePassBest]
      rw [edgeFold_from]
      cases hva : vertexFold none pc none
          (getInExtent rBush (snapQueryBox m tol pixel)) with
      | none => rfl
      | some p =>
        obtain ⟨v, dv⟩ := p
        have hdv : dv = squaredDistance pc v :=
          vertexFold_inv pc _ none (by intro v0 d0 h0; simp at h0) v dv hva
        have hvfail : ¬ squaredDistance pixel (m.pixelFromCoord v) ≤ tol * tol := by
          intro hle
          rw [hva] at hv
          simp only [Option.map_some', getResult, if_pos hle] at hv
          exact Option.noConfusion hv
        cases hB : edgeFold none cc pc none
            (getInExtent rBush (snapQueryBox m tol pixel)) with
        | none =>
          rw [combine_none_right]
          simp only [Option.map_some', Option.map_none', getResult,
            if_neg hvfail]
        | some q =>
          obtain ⟨w, dw⟩ := q
          have hdw : dw = squaredDistance pc w :=
            edgeFold_inv none cc pc _ none (by intro v0 d0 h0; simp at h0)
              w dw hB
          simp only [combine]
          by_cases hlt : dw < dv
          · rw [if_pos hlt]
          · rw [if_neg hlt]
            have hwfail : ¬ squaredDistance pixel (m.pixelFromCoord w) ≤
                tol * tol := by
              intro hle
              apply hvfail
              have hvw : squaredDistance pc v ≤ squaredDistance pc w := by
                rw [← hdv, ← hdw]
                exact not_lt.mp hlt
              calc squaredDistance pixel (m.pixelFromCoord v)
                  = k * squaredDistance pc v := hk v
                _ ≤ k * squaredDistance pc w :=
                    mul_le_mul_of_nonneg_left hvw hk0
                _ = squaredDistance pixel (m.pixelFromCoord w) := (hk w).symm
                _ ≤ tol * tol := hle
            simp only [Option.map_some', getResult, if_neg hvfail,
              if_neg hwfail]

/-- Witness for the conformal-transform lemma, the edge-only fallback scenario
of the spec: vertex pass disabled, query point (5, 0.2) against the segment
from (0,0) to (10,0), identity view transform, tolerance 10; the edge pass
snaps to (5, 0). -/
theorem edge_pass_spec_witness :
    (0 : ℚ) ≤ 1 ∧
    snapTo none ccStub idMapModel false true 10 lineRBush (5, 1/5) (5, 1/5) =
      some ⟨(5, 0), (5, 0)⟩ := by
  refine ⟨by norm_num, ?_⟩
  have h := edge_pass_spec ccStub idMapModel false 10 lineRBush (5, 1/5) (5, 1/5)
    1 (by norm_num) (fun c => (one_mul _).symm) rfl
  rw [h]
  norm_num [getResult, specEdgePassBest, edgeFold, edgeCandidate, accUpdate,
    getInExtent, lineRBush, snapQueryBox, idMapModel, boundingExtent,
    extendCoord, intersectsB, List.filter, lineFeature1, closestOnSegment,
    fromUserCoordinate, toUserCoordinate, squaredDistance, jsRound]

/-- Counterexample for C4: under an anisotropic view transform, with a point
feature whose vertex fails the pixel check while being closer in data space
than every edge candidate, snapTo returns none although the minimum edge
candidate (0,4) passes the pixel-tolerance check: the edge pass keeps the
running minimum carried over from the failed vertex pass instead of selecting
among the edge candidates only.  The three conjuncts show the vertex pass did
not return, the claimed edge-pass result is some (0,4), and the code returns
none. -/
theorem edge_pass_carryover_counterexample :
    (getResult anisoMap (0, 0) (5 * 5)
      ((vertexFold none (0, 0) none
        (getInExtent blockRBush (snapQueryBox anisoMap 5 (0, 0)))).map
          Prod.fst) = none) ∧
    (getResult anisoMap (0, 0) (5 * 5)
      ((specEdgePassBest none ccStub (0, 0)
        (getInExtent blockRBush (snapQueryBox anisoMap 5 (0, 0)))).map
          Prod.fst) = some ⟨(0, 4), (0, 4)⟩) ∧
    snapTo none ccStub anisoMap true true 5 blockRBush (0, 0) (0, 0) = none := by
  refine ⟨?_, ?_, ?_⟩ <;>
    norm_num [snapTo, getResult, specEdgePassBest, vertexFold, edgeFold,
      edgeCandidate, accUpdate, getInExtent, blockRBush, snapQueryBox, anisoMap,
      boundingExtent, extendCoord, intersectsB, List.filter, pointFeatureA,
      lineFeatureB, closestOnSegment, fromUserCoordinate, toUserCoordinate,
      squaredDistance, jsRound, Feature.isCircle, combine]

/-- C4 (amended): in every snap query where the vertex pass did not return and
the edge pass is enabled, the edge pass computes, over all candidate entries,
the closest point on each segment (or, for Circle features, the closest point
on the circle boundary computed directly by the black-box closestOnCircle,
not a point of the indexed polygon approximation), and continues the running
minimum left by the failed vertex pass: snapTo applies the pixel-tolerance
check to the overall minimum by data-space squared distance of that carried
minimum combined with the edge candidates, and returns it if it passes — so
a leftover vertex that is closer in data space (and necessarily fails the
check again) makes the query return none even when an edge candidate would
pass.  This holds for every user projection, view transform and vertex flag. -/
theorem edge_pass_with_carryover (up : Option UProj)
    (cc : Coord → Coord × ℚ → Coord) (m : MapModel) (vertexB : Bool) (tol : ℚ)
    (rBush : RBushT) (pixel pc : Coord)
    (hv : (if vertexB then
        getResult m pixel (tol * tol)
          ((vertexFold up (fromUserCoordinate up pc) none
            (getInExtent rBush (snapQueryBox m tol pixel))).map Prod.fst)
      else none) = none) :
    snapTo up cc m vertexB true tol rBush pixel pc =
      getResult m pixel (tol * tol)
        ((combine
          (if vertexB then
            vertexFold up (fromUserCoordinate up pc) none
              (getInExtent rBush (snapQueryBox m tol pixel))
          else none)
          (specEdgePassBest up cc (fromUserCoordinate up pc)
            (getInExtent rBush (snapQueryBox m tol pixel)))).map Prod.fst) := by
  by_cases hlen : (getInExtent rBush (snapQueryBox m tol pixel)).length = 0
  · have hnil := List.length_eq_zero.mp hlen
    simp only [snapTo, if_pos hlen]
    rw [hnil]
    simp [vertexFold, specEdgePassBest, edgeFold, combine, getResult]
  · cases vertexB with
    | false =>
      simp only [snapTo, if_neg hlen, Bool.false_eq_true, if_false, if_true,
        specEdgePassBest, combine]
    | true =>
      simp only [if_true] at hv
      simp only [snapTo, if_neg hlen, if_true, hv, specEdgePassBest]
      rw [edgeFold_from]

/-- Witness for C4 (amended): the edge-only fallback of the spec (vertex pass
disabled, snap to (5,0)) and the carry-over scenario (vertex pass enabled and
failing, result none because the carried minimum wins). -/
theorem edge_pass_with_carryover_witness :
    snapTo none ccStub idMapModel false true 10 lineRBush (5, 1/5) (5, 1/5) =
      some ⟨(5, 0), (5, 0)⟩ ∧
    snapTo none ccStub anisoMap true true 5 blockRBush (0, 0) (0, 0) = none := by
  constructor
  · have h := edge_pass_with_carryover none ccStub idMapModel false 10 lineRBush
      (5, 1/5) (5, 1/5) rfl
    rw [h]
    norm_num [getResult, specEdgePassBest, edgeFold, edgeCandidate, accUpdate,
      getInExtent, lineRBush, snapQueryBox, idMapModel, boundingExtent,
      extendCoord, intersectsB, List.filter, lineFeature1, closestOnSegment,
      fromUserCoordinate, toUserCoordinate, squaredDistance, jsRound, combine]
  · have hv : (if (true : Bool) then
        getResult anisoMap (0, 0) (5 * 5)
          ((vertexFold none (fromUserCoordinate none (0, 0)) none
            (getInExtent blockRBush (snapQueryBox anisoMap 5 (0, 0)))).map
              Prod.fst)
      else none) = none := by
      norm_num [getResult, vertexFold, accUpdate, getInExtent, blockRBush,
        snapQueryBox, anisoMap, boundingExtent, extendCoord, intersectsB,
        List.filter, pointFeatureA, lineFeatureB, fromUserCoordinate,
        squaredDistance, jsRound, Feature.isCircle]
    have h := edge_pass_with_carryover none ccStub anisoMap true 5 blockRBush
      (0, 0) (0, 0) hv
    rw [h]
    norm_num [getResult, specEdgePassBest, vertexFold, edgeFold, edgeCandidate,
      accUpdate, getInExtent, blockRBush, snapQueryBox, anisoMap,
      boundingExtent, extendCoord, intersectsB, List.filter, pointFeatureA,
      lineFeatureB, closestOnSegment, fromUserCoordinate, toUserCoordinate,
      squaredDistance, jsRound, Feature.isCircle, combine]
